import Mathlib

/-!
Verification of `metrics/foundations_sru.py`: a shallow embedding in Lean 4
of the SRU-queue metrics collector, together with theorems settling the
specification's claims about it.

The embedding models:
* `sru_queue_count` / `sru_ages` : series enumeration (active minus current),
  per-series upload counting and age statistics (`sruAgeStats`);
* `sru_verified_and_ready_count` : the HTML report parse — per-table release
  naming, table skip rules, and per-row classification (`processRow`);
* `collect` : console rendering and the optional batched gateway push.

External collaborators (Launchpad, the HTML fetch, the push gateway) are
modelled as explicit inputs, as the spec's component design prescribes.
-/

namespace FoundationsSru

/-! ## Python `in` (substring containment)

The source tests `'Failed' in failure` etc.; we model Python's substring
operator on the character lists of the strings. -/

/-- `leadsWith n h` is true when the character list `n` is an initial
segment of `h` (Python `h.startswith(n)`). -/
def leadsWith : List Char → List Char → Bool
  | [], _ => true
  | _ :: _, [] => false
  | a :: as, b :: bs => a == b && leadsWith as bs

/-- `containsChars n h` is true when `n` occurs contiguously inside `h`
(Python `n in h` on strings, viewed as character lists). -/
def containsChars (needle : List Char) : List Char → Bool
  | [] => needle.isEmpty
  | c :: t => leadsWith needle (c :: t) || containsChars needle t

/-- Python's `needle in hay` on strings. -/
def containsStr (needle hay : String) : Bool :=
  containsChars needle.toList hay.toList

theorem leadsWith_iff (n h : List Char) :
    leadsWith n h = true ↔ ∃ post, h = n ++ post := by
  induction n generalizing h with
  | nil => simp [leadsWith]
  | cons a as ih =>
    cases h with
    | nil => simp [leadsWith]
    | cons b bs =>
      simp only [leadsWith, Bool.and_eq_true, beq_iff_eq, ih]
      constructor
      · rintro ⟨rfl, post, rfl⟩
        exact ⟨post, rfl⟩
      · rintro ⟨post, hpost⟩
        cases hpost
        exact ⟨rfl, post, rfl⟩

theorem containsChars_iff (n h : List Char) :
    containsChars n h = true ↔ ∃ pre post, h = pre ++ n ++ post := by
  induction h with
  | nil =>
    simp only [containsChars, List.isEmpty_iff]
    constructor
    · rintro rfl
      exact ⟨[], [], rfl⟩
    · rintro ⟨pre, post, hp⟩
      rcases List.append_eq_nil.mp (List.append_eq_nil.mp hp.symm).1 with ⟨-, h2⟩
      exact h2
  | cons c t ih =>
    simp only [containsChars, Bool.or_eq_true, leadsWith_iff, ih]
    constructor
    · rintro (⟨post, hpost⟩ | ⟨pre, post, rfl⟩)
      · exact ⟨[], post, by simpa using hpost⟩
      · exact ⟨c :: pre, post, rfl⟩
    · rintro ⟨pre, post, hp⟩
      cases pre with
      | nil =>
        left
        exact ⟨post, by simpa using hp⟩
      | cons p ps =>
        right
        simp only [List.cons_append] at hp
        exact ⟨ps, post, (List.cons.injEq .. ▸ hp).2⟩

theorem containsStr_iff (n h : String) :
    containsStr n h = true ↔ ∃ pre post, h.toList = pre ++ n.toList ++ post :=
  containsChars_iff n.toList h.toList

/-! ## The HTML report model

`sru_verified_and_ready_count` walks the BeautifulSoup tree of the
pending-SRU report.  We embed exactly the features of the tree the code
reads: for each `<td>` cell its `.text`, the result of `int(cell.string)`
(when `cell.string` exists and is an integer literal), and its `<a>`
children with their optional `class` attribute; for each `<table>` whether
it `has_attr('id')`, the text node immediately preceding it in document
order (`table.previous.previous`), and its `<tr>` rows as lists of cells. -/

/-- An `<a>` bug link inside the fifth cell.  `classes` is the `class`
attribute (a list of class names in bs4); `none` models an absent
attribute, where `bug['class']` raises `KeyError`. -/
structure BugLink where
  classes : Option (List String)
deriving DecidableEq, Repr

/-- A `<td>` cell.  `text` is `cell.text`; `intVal` is the value of
`int(cell.string)` when that call succeeds and `none` when it raises
(missing/non-integer string); `links` are `cell.findChildren('a')`. -/
structure Cell where
  text : String
  intVal : Option Int
  links : List BugLink
deriving DecidableEq, Repr

/-- A `<table>` of the report: whether it has an `id` attribute, the text
immediately preceding it, and its rows (each row the list of its `<td>`
cells; header rows have no `<td>` and appear as `[]`). -/
structure Table where
  hasId : Bool
  precedingText : String
  rows : List (List Cell)
deriving DecidableEq, Repr

/-- Python exceptions that the row-scanning code can raise. -/
inductive RowError where
  | indexError
  | valueError
  | keyError
deriving DecidableEq, Repr

/-- The failure test on the first cell:
`'Failed' in failure or 'Dependency wait' in failure or
 'Cancelled' in failure or 'Regression in autopkgtest' in failure`. -/
def isFailureText (s : String) : Bool :=
  containsStr "Failed" s || containsStr "Dependency wait" s ||
    containsStr "Cancelled" s || containsStr "Regression in autopkgtest" s

/-- The loop `for bug in bugs: if 'verified' not in bug['class']: ...`.
A link without a `class` attribute raises `KeyError`; an unverified link
makes the whole check false (and breaks before later links are read). -/
def allLinksVerified : List BugLink → Except RowError Bool
  | [] => .ok true
  | b :: rest =>
    match b.classes with
    | none => .error .keyError
    | some cs => if "verified" ∈ cs then allLinksVerified rest else .ok false

/-- One iteration of the `for tag in trs` loop: decides whether the row is
counted (`.ok true`), skipped (`.ok false`), or raises.  Mirrors the source:
rows with zero cells are skipped; a failure marker in the first cell skips;
`cols[5]` raises `IndexError` when there are fewer than six cells;
`int(cols[5].string)` raises when not an integer; the row counts when the
days-in-proposed value is at least 7 and every bug link is verified. -/
def processRow (cells : List Cell) : Except RowError Bool :=
  if cells.length = 0 then .ok false
  else
    if isFailureText (cells.headD ⟨"", none, []⟩).text then .ok false
    else
      match cells[5]? with
      | none => .error .indexError
      | some c5 =>
        match c5.intVal with
        | none => .error .valueError
        | some n =>
          if 7 ≤ n then
            match cells[4]? with
            | none => .error .indexError
            | some c4 => allLinksVerified c4.links
          else .ok false

/-- Number of counted rows of one table (the net effect of the
`ready_srus[release] += 1` increments for that table). -/
def countTableRows : List (List Cell) → Except RowError Nat
  | [] => .ok 0
  | r :: rest =>
    match processRow r with
    | .error e => .error e
    | .ok b =>
      match countTableRows rest with
      | .error e => .error e
      | .ok n => .ok (if b then n + 1 else n)

/-- The literal heading preceding the summary table, which is skipped. -/
def headingText : String := "Upload queue status at a glance:"

/-- Python dict assignment `m[k] = v`: updates the first entry with key `k`
in place, else appends (insertion order preserved, as for `dict`). -/
def setKey : List (String × Nat) → String → Nat → List (String × Nat)
  | [], k, v => [(k, v)]
  | (k0, v0) :: rest, k, v =>
    if k0 = k then (k0, v) :: rest else (k0, v0) :: setKey rest k v

/-- Python dict lookup `m[k]` as an `Option`. -/
def lookupKey : List (String × Nat) → String → Option Nat
  | [], _ => none
  | (k0, v0) :: rest, k => if k0 = k then some v0 else lookupKey rest k

/-- The two skip tests of the table loop combined: the table has an `id`
attribute and its preceding text is not the summary heading. -/
def qualifyingTable (t : Table) : Bool :=
  t.hasId && decide (t.precedingText ≠ headingText)

/-- One iteration of the `for table in tables` loop: tables without an
`id` attribute are skipped, tables preceded by the summary heading are
skipped, and otherwise `ready_srus[release]` is set to the table's
counted-row total (`= 0` initialisation plus the increments). -/
def processTable (m : List (String × Nat)) (t : Table) :
    Except RowError (List (String × Nat)) :=
  if t.hasId = false then .ok m
  else if t.precedingText = headingText then .ok m
  else
    match countTableRows t.rows with
    | .error e => .error e
    | .ok n => .ok (setKey m t.precedingText n)

/-- The table loop of `sru_verified_and_ready_count`, from a given
accumulated dict. -/
def readySrusFrom (m : List (String × Nat)) :
    List Table → Except RowError (List (String × Nat))
  | [] => .ok m
  | t :: rest =>
    match processTable m t with
    | .error e => .error e
    | .ok m2 => readySrusFrom m2 rest

/-- The per-release verified-and-ready counts built from the parsed tables
(`ready_srus` at the end of the table loop); an uncaught row exception
aborts the whole computation. -/
def readySrusOfTables (tables : List Table) :
    Except RowError (List (String × Nat)) :=
  readySrusFrom [] tables

/-- The outcome of `BeautifulSoup(report_contents, 'lxml')`: either the
list of tables of the parsed document, or a structural parse failure
(the `HTMLParseError` branch). -/
inductive FetchedReport where
  | parsed (tables : List Table)
  | unparsable
deriving DecidableEq, Repr

/-- What `sru_verified_and_ready_count` produces: whether
`logging.error('Error parsing SRU report')` ran, and the returned value —
`none` models the bare `return` (Python `None`), `some m` the dict. -/
structure SvrcOutcome where
  loggedParseError : Bool
  result : Option (List (String × Nat))
deriving DecidableEq, Repr

/-- `sru_verified_and_ready_count`, from the fetched report.  On a parse
failure it logs an error and returns `None`; otherwise it returns the
accumulated dict (row exceptions propagate). -/
def sruVerifiedAndReadyCount : FetchedReport → Except RowError SvrcOutcome
  | .unparsable => .ok ⟨true, none⟩
  | .parsed tables =>
    match readySrusOfTables tables with
    | .error e => .error e
    | .ok m => .ok ⟨false, some m⟩

/-! ## Queue counts and age statistics -/

/-- A Launchpad distro series: its `name` and `active` flag. -/
structure Series where
  name : String
  active : Bool
deriving DecidableEq, Repr

/-- The slice of the Launchpad `ubuntu` object the code reads: all series
and the current (development) series. -/
structure Distro where
  series : List Series
  currentSeries : Series
deriving DecidableEq, Repr

/-- `stable_series = [s for s in ubuntu.series if s.active]` followed by
`stable_series.remove(ubuntu.current_series)`.  Python's `list.remove`
deletes the first occurrence and raises `ValueError` when the element is
absent; `none` models that exception. -/
def stableSeries (d : Distro) : Option (List Series) :=
  let act := d.series.filter (fun s => s.active)
  if d.currentSeries ∈ act then some (act.erase d.currentSeries) else none

/-- `sru_queue_count`: per stable series, the number of Unapproved/Proposed
uploads.  The upload query is a capability `getUploads` returning the
records for a series. -/
def sruQueueCount (d : Distro) (getUploads : Series → List Int) :
    Option (List (String × Nat)) :=
  (stableSeries d).map (fun ss => ss.map (fun s => (s.name, (getUploads s).length)))

/-- The per-series result record of `sru_ages`. -/
structure AgeStats where
  oldest : Int
  backlogCount : Nat
  backlogAge : Int
deriving DecidableEq, Repr

/-- One iteration of the upload loop of `sru_ages`, over the age in whole
days of one upload (`(today - upload.date_created.replace(tzinfo=None)).days`):
track the oldest age, and for ages strictly over 10 days add to the
backlog count and backlog age. -/
def ageFold (acc : AgeStats) (a : Int) : AgeStats :=
  let acc1 := if acc.oldest < a then { acc with oldest := a } else acc
  if 10 < a then
    { acc1 with backlogCount := acc1.backlogCount + 1,
                backlogAge := acc1.backlogAge + (a - 10) }
  else acc1

/-- The age statistics of one series, from the list of its uploads' ages
in whole days. -/
def sruAgeStats (ages : List Int) : AgeStats :=
  ages.foldl ageFold ⟨0, 0, 0⟩

/-- `sru_ages`: per stable series, the age statistics of its
Unapproved/Proposed uploads.  `getUploadAges` abstracts the upload query
composed with the per-upload age computation. -/
def sruAges (d : Distro) (getUploadAges : Series → List Int) :
    Option (List (String × AgeStats)) :=
  (stableSeries d).map (fun ss => ss.map (fun s => (s.name, sruAgeStats (getUploadAges s))))

/-! ## `collect`: console report and gateway push -/

/-- One Prometheus gauge family: metric name, help string, and one sample
per label value. -/
structure GaugeFamily where
  name : String
  help : String
  samples : List (String × Int)
deriving DecidableEq, Repr

/-- One `push2gateway` call: the job name and the registry contents. -/
structure GatewayPush where
  job : String
  families : List GaugeFamily
deriving DecidableEq, Repr

/-- The observable effects of one `collect` run: the console lines printed
and the gateway pushes performed. -/
structure CollectOut where
  console : List String
  pushes : List GatewayPush
deriving DecidableEq, Repr

/-- Python exceptions `collect` itself can raise. -/
inductive RunError where
  | attributeError
deriving DecidableEq, Repr

/-- `q_name` of the source. -/
def qName : String := "Proposed Uploads in the Unapproved Queue per Series"

/-- `'%s: %s' % (series, count)`. -/
def consoleLine (a b : String) : String := a ++ ": " ++ b

/-- `collect(dryrun)`, parameterised by the results of the three data
functions.  `readySrus = none` models `sru_verified_and_ready_count`
having returned `None`: iterating `ready_srus.items()` then raises
`AttributeError` and the run aborts (nothing is pushed). -/
def collectRun (sruQueues : List (String × Nat))
    (readySrus : Option (List (String × Nat)))
    (ageData : List (String × AgeStats)) (dryrun : Bool) :
    Except RunError CollectOut :=
  let lines1 := ("Number of " ++ qName ++ ":") ::
    sruQueues.map (fun p => consoleLine p.1 (toString p.2))
  let lines2 := ("Age in days of oldest " ++ (qName.replace "Uploads" "Upload") ++ ":") ::
    ageData.map (fun p => consoleLine p.1 (toString p.2.oldest))
  let lines3 := ("Backlog age in days of " ++ qName ++ ":") ::
    ageData.map (fun p => consoleLine p.1 (toString p.2.backlogAge))
  let lines4 := ("Number of backlogged " ++ qName ++ ":") ::
    ageData.map (fun p => consoleLine p.1 (toString p.2.backlogCount))
  let header5 := "Number of Publishable Updates in Proposed per Series:"
  match readySrus with
  | none => .error .attributeError
  | some rs =>
    let lines5 := header5 :: rs.map (fun p => consoleLine p.1 (toString p.2))
    let console := lines1 ++ lines2 ++ lines3 ++ lines4 ++ lines5
    if dryrun then .ok ⟨console, []⟩
    else
      let fams : List GaugeFamily :=
        [⟨"distro_sru_unapproved_proposed_count",
          "Number of " ++ qName,
          sruQueues.map (fun p => (p.1, (p.2 : Int)))⟩,
         ⟨"distro_sru_unapproved_proposed_oldest_age",
          "Age in days of oldest " ++ (qName.replace "Uploads" "Upload"),
          ageData.map (fun p => (p.1, p.2.oldest))⟩,
         ⟨"distro_sru_unapproved_proposed_ten_day_backlog_age",
          "Backlog age in days of " ++ qName,
          ageData.map (fun p => (p.1, p.2.backlogAge))⟩,
         ⟨"distro_sru_unapproved_proposed_ten_day_backlog_count",
          "Number of backlogged " ++ qName,
          ageData.map (fun p => (p.1, (p.2.backlogCount : Int)))⟩,
         ⟨"distro_sru_verified_and_ready_count",
          "Number of Publishable Updates in Proposed per Series",
          rs.map (fun p => (p.1, (p.2 : Int)))⟩]
      .ok ⟨console ++ ["Pushing data..."], [⟨"foundations-sru", fams⟩]⟩

/-! ## Concrete report rows used to exercise the row classifier -/

/-- A six-cell row: empty first cell, `links` in the fifth cell, `days`
as the sixth cell's integer value. -/
def mkBugRow (links : List BugLink) (days : Int) : List Cell :=
  [⟨"", none, []⟩, ⟨"", none, []⟩, ⟨"", none, []⟩, ⟨"", none, []⟩,
   ⟨"", none, links⟩, ⟨"", some days, []⟩]

/-- A six-cell row with no bug links and `days` in the sixth cell. -/
def mkPlainRow (days : Int) : List Cell :=
  mkBugRow [] days

/-! ## Lemmas about the age fold -/

theorem ageFold_backlogCount (acc : AgeStats) (a : Int) :
    (ageFold acc a).backlogCount =
      acc.backlogCount + (if 10 < a then 1 else 0) := by
  unfold ageFold
  split <;> split <;> simp

theorem ageFold_backlogAge (acc : AgeStats) (a : Int) :
    (ageFold acc a).backlogAge =
      acc.backlogAge + (if 10 < a then a - 10 else 0) := by
  unfold ageFold
  split <;> split <;> simp

theorem ageFold_oldest (acc : AgeStats) (a : Int) :
    (ageFold acc a).oldest = max acc.oldest a := by
  unfold ageFold
  rcases lt_or_le acc.oldest a with h | h
  · rw [max_eq_right h.le]
    simp only [if_pos h]
    split <;> rfl
  · rw [max_eq_left h]
    simp only [if_neg (not_lt.mpr h)]
    split <;> rfl

theorem foldl_ageFold_backlogCount (ages : List Int) (acc : AgeStats) :
    (ages.foldl ageFold acc).backlogCount =
      acc.backlogCount + (ages.filter (fun a => decide (10 < a))).length := by
  induction ages generalizing acc with
  | nil => simp
  | cons a rest ih =>
    rcases lt_or_le 10 a with h | h
    · simp [List.filter_cons, h, ih, ageFold_backlogCount, Nat.add_assoc, Nat.add_comm 1]
    · simp [List.filter_cons, not_lt.mpr h, ih, ageFold_backlogCount]

theorem foldl_ageFold_backlogAge (ages : List Int) (acc : AgeStats) :
    (ages.foldl ageFold acc).backlogAge =
      acc.backlogAge +
        ((ages.filter (fun a => decide (10 < a))).map (fun a => a - 10)).sum := by
  induction ages generalizing acc with
  | nil => simp
  | cons a rest ih =>
    rcases lt_or_le 10 a with h | h
    · simp [List.filter_cons, h, ih, ageFold_backlogAge]
      ring
    · simp [List.filter_cons, not_lt.mpr h, ih, ageFold_backlogAge]

theorem foldl_ageFold_oldest (ages : List Int) (acc : AgeStats) :
    (ages.foldl ageFold acc).oldest = ages.foldl max acc.oldest := by
  induction ages generalizing acc with
  | nil => rfl
  | cons a rest ih => simp [ih, ageFold_oldest]

theorem le_foldl_max (ages : List Int) (m : Int) : m ≤ ages.foldl max m := by
  induction ages generalizing m with
  | nil => exact le_refl m
  | cons a rest ih => exact le_trans (le_max_left m a) (ih (max m a))

theorem mem_le_foldl_max (ages : List Int) (m a : Int) :
    a ∈ ages → a ≤ ages.foldl max m := by
  induction ages generalizing m with
  | nil => intro ha; cases ha
  | cons b rest ih =>
    intro ha
    rcases List.mem_cons.mp ha with rfl | ha2
    · exact le_trans (le_max_right m a) (le_foldl_max rest (max m a))
    · exact ih (max m b) ha2

theorem foldl_max_mem (ages : List Int) (m : Int) :
    ages.foldl max m = m ∨ ages.foldl max m ∈ ages := by
  induction ages generalizing m with
  | nil => exact Or.inl rfl
  | cons a rest ih =>
    rcases ih (max m a) with h | h
    · rcases max_cases m a with ⟨he, -⟩ | ⟨he, -⟩
      · exact Or.inl (by rw [List.foldl_cons, h, he])
      · exact Or.inr (by rw [List.foldl_cons, h, he]; exact List.mem_cons_self a rest)
    · exact Or.inr (List.mem_cons_of_mem a h)

/-- C3: for every series, over matching uploads with ages `[a1..an]` in
whole days, the oldest age is `max ai` (0 when empty: the empty list gives
the all-zero record), the ten-day backlog count is `|{ai : ai > 10}|`, and
the ten-day backlog age is the sum of `ai - 10` over exactly the uploads
with `ai > 10`; zero uploads give all-zero statistics, not an error. -/
theorem sruAgeStats_correct (ages : List Int) (hnn : ∀ a ∈ ages, 0 ≤ a) :
    (ages = [] → sruAgeStats ages = ⟨0, 0, 0⟩)
    ∧ (∀ a ∈ ages, a ≤ (sruAgeStats ages).oldest)
    ∧ (ages ≠ [] → (sruAgeStats ages).oldest ∈ ages)
    ∧ (sruAgeStats ages).backlogCount =
        (ages.filter (fun a => decide (10 < a))).length
    ∧ (sruAgeStats ages).backlogAge =
        ((ages.filter (fun a => decide (10 < a))).map (fun a => a - 10)).sum := by
  refine ⟨fun he => by simp [he, sruAgeStats], ?_, ?_, ?_, ?_⟩
  · intro a ha
    rw [sruAgeStats, foldl_ageFold_oldest]
    exact mem_le_foldl_max ages 0 a ha
  · intro hne
    rw [sruAgeStats, foldl_ageFold_oldest]
    rcases foldl_max_mem ages 0 with h | h
    · rcases List.exists_mem_of_ne_nil ages hne with ⟨a, ha⟩
      have h1 : a ≤ ages.foldl max 0 := mem_le_foldl_max ages 0 a ha
      have h2 : a = 0 := le_antisymm (h ▸ h1) (hnn a ha)
      rw [h, ← h2]
      exact ha
    · exact h
  · rw [sruAgeStats, foldl_ageFold_backlogCount]
    simp
  · rw [sruAgeStats, foldl_ageFold_backlogAge]
    simp

/-- Witness for C3 at the spec's example ages `[3, 12, 25]`. -/
theorem sruAgeStats_correct_witness :
    (∀ a ∈ ([3, 12, 25] : List Int), 0 ≤ a)
    ∧ (sruAgeStats [3, 12, 25]).backlogAge =
        ((([3, 12, 25] : List Int).filter (fun a => decide (10 < a))).map
          (fun a => a - 10)).sum :=
  ⟨by decide, (sruAgeStats_correct [3, 12, 25] (by decide)).2.2.2.2⟩

/-! ## Row classification -/

theorem allLinksVerified_ok_true_iff (links : List BugLink)
    (hcls : ∀ b ∈ links, b.classes ≠ none) :
    allLinksVerified links = .ok true ↔
      ∀ b ∈ links, ∀ cs, b.classes = some cs → "verified" ∈ cs := by
  induction links with
  | nil => simp [allLinksVerified]
  | cons b rest ih =>
    cases hb : b.classes with
    | none => exact absurd hb (hcls b (List.mem_cons_self b rest))
    | some cs =>
      by_cases hv : "verified" ∈ cs
      · rw [allLinksVerified, hb]
        simp only [hv, if_true]
        rw [ih (fun x hx => hcls x (List.mem_cons_of_mem b hx))]
        constructor
        · intro hall x hx cs2 hcs2
          rcases List.mem_cons.mp hx with rfl | hx2
          · rw [hb] at hcs2
            cases hcs2
            exact hv
          · exact hall x hx2 cs2 hcs2
        · intro hall x hx cs2 hcs2
          exact hall x (List.mem_cons_of_mem b hx) cs2 hcs2
      · rw [allLinksVerified, hb]
        simp only [hv, if_false]
        constructor
        · intro hcontra
          cases hcontra
        · intro hall
          exact absurd (hall b (List.mem_cons_self b rest) cs hb) hv

/-- C5: a row is counted toward the ready count only when the sixth data
cell's integer days-in-proposed value is at least 7; a row with value 6 is
excluded and one with value 7 is counted (boundary at 7, inclusive), and
this 7-day soak threshold is distinct from the 10-day backlog threshold
(an upload 7 days old is not backlogged). -/
theorem processRow_soak_threshold :
    (∀ (cells : List Cell) (c5 : Cell) (n : Int),
      processRow cells = .ok true → cells[5]? = some c5 →
        c5.intVal = some n → 7 ≤ n)
    ∧ processRow (mkPlainRow 6) = .ok false
    ∧ processRow (mkPlainRow 7) = .ok true
    ∧ (sruAgeStats [7]).backlogCount = 0 := by
  refine ⟨?_, by rfl, by rfl, by rfl⟩
  intro cells c5 n h h5 hi
  rw [processRow] at h
  split at h
  · cases h
  · split at h
    · cases h
    · rw [h5] at h
      simp only [] at h
      rw [hi] at h
      simp only [] at h
      split at h
      · assumption
      · cases h

/-- Witness for C5 at a concrete counted row with days-in-proposed 8. -/
theorem processRow_soak_threshold_witness :
    (processRow (mkPlainRow 8) = .ok true
      ∧ (mkPlainRow 8)[5]? = some ⟨"", some 8, []⟩
      ∧ (Cell.mk "" (some 8) []).intVal = some 8)
    ∧ (7 : Int) ≤ 8 :=
  ⟨⟨by rfl, by rfl, by rfl⟩,
    processRow_soak_threshold.1 (mkPlainRow 8) ⟨"", some 8, []⟩ 8
      (by rfl) (by rfl) (by rfl)⟩

/-- C6: a row whose first cell's text contains any of the substrings
"Failed", "Dependency wait", "Cancelled" or "Regression in autopkgtest"
is excluded from the ready count regardless of the other cells. -/
theorem processRow_failure_marker_skips (c0 : Cell) (rest : List Cell)
    (hf : ∃ f ∈ ["Failed", "Dependency wait", "Cancelled",
        "Regression in autopkgtest"],
      ∃ pre post, c0.text.toList = pre ++ f.toList ++ post) :
    processRow (c0 :: rest) = .ok false := by
  have hft : isFailureText c0.text = true := by
    rcases hf with ⟨f, hfm, pre, post, hsplit⟩
    have hc : containsStr f c0.text = true :=
      (containsStr_iff f c0.text).mpr ⟨pre, post, hsplit⟩
    simp only [List.mem_cons, List.mem_singleton, List.not_mem_nil,
      or_false] at hfm
    rcases hfm with rfl | rfl | rfl | rfl <;> simp [isFailureText, hc]
  unfold processRow
  simp [hft]

/-- Witness for C6: a one-cell row whose first cell reads "Cancelled". -/
theorem processRow_failure_marker_skips_witness :
    (∃ f ∈ ["Failed", "Dependency wait", "Cancelled",
        "Regression in autopkgtest"],
      ∃ pre post, (Cell.mk "Cancelled" none []).text.toList =
        pre ++ f.toList ++ post)
    ∧ processRow [⟨"Cancelled", none, []⟩] = .ok false :=
  ⟨⟨"Cancelled", by simp, [], [], by simp⟩,
    processRow_failure_marker_skips ⟨"Cancelled", none, []⟩ []
      ⟨"Cancelled", by simp, [], [], by simp⟩⟩

/-- C7: an otherwise-eligible row (no failure marker, days-in-proposed at
least 7, every bug link carrying a class attribute) is counted exactly
when every bug link in the fifth cell has the "verified" classification;
one unverified link excludes the row even when another is verified, and a
row with no links at all is counted. -/
theorem processRow_verified_links :
    (∀ (c0 c1 c2 c3 c4 c5 : Cell) (rest : List Cell) (n : Int),
      isFailureText c0.text = false → c5.intVal = some n → 7 ≤ n →
        (∀ b ∈ c4.links, b.classes ≠ none) →
        (processRow (c0 :: c1 :: c2 :: c3 :: c4 :: c5 :: rest) = .ok true ↔
          ∀ b ∈ c4.links, ∀ cs, b.classes = some cs → "verified" ∈ cs))
    ∧ processRow (mkBugRow [⟨some ["verified"]⟩, ⟨some ["other"]⟩] 8) = .ok false
    ∧ processRow (mkBugRow [] 8) = .ok true := by
  refine ⟨?_, by rfl, by rfl⟩
  intro c0 c1 c2 c3 c4 c5 rest n h0 h5 hn hcls
  have hlen : (c0 :: c1 :: c2 :: c3 :: c4 :: c5 :: rest).length ≠ 0 := by
    simp
  unfold processRow
  simp only [if_neg hlen, List.headD_cons, h0, Bool.false_eq_true, if_false,
    List.getElem?_cons_succ, List.getElem?_cons_zero, h5, if_pos hn]
  exact allLinksVerified_ok_true_iff c4.links hcls

/-- Witness for C7 at a row with one verified and one unverified link. -/
theorem processRow_verified_links_witness :
    (isFailureText (Cell.mk "" none []).text = false
      ∧ (Cell.mk "" (some 8) []).intVal = some 8
      ∧ (7 : Int) ≤ 8
      ∧ (∀ b ∈ (Cell.mk "" none
            [⟨some ["verified"]⟩, ⟨some ["other"]⟩]).links, b.classes ≠ none))
    ∧ (processRow (mkBugRow [⟨some ["verified"]⟩, ⟨some ["other"]⟩] 8) = .ok true ↔
        ∀ b ∈ (Cell.mk "" none
            [⟨some ["verified"]⟩, ⟨some ["other"]⟩]).links,
          ∀ cs, b.classes = some cs → "verified" ∈ cs) :=
  ⟨⟨by rfl, by rfl, by decide, by decide⟩,
    processRow_verified_links.1 ⟨"", none, []⟩ ⟨"", none, []⟩ ⟨"", none, []⟩
      ⟨"", none, []⟩ ⟨"", none, [⟨some ["verified"]⟩, ⟨some ["other"]⟩]⟩
      ⟨"", some 8, []⟩ [] 8 (by rfl) (by rfl) (by decide) (by decide)⟩

/-! ## Table loop lemmas -/

theorem lookupKey_setKey_self (m : List (String × Nat)) (k : String) (v : Nat) :
    lookupKey (setKey m k v) k = some v := by
  induction m with
  | nil => simp [setKey, lookupKey]
  | cons p rest ih =>
    obtain ⟨k0, v0⟩ := p
    by_cases hk : k0 = k
    · subst hk
      simp [setKey, lookupKey]
    · simp [setKey, hk, lookupKey, ih]

theorem lookupKey_setKey_ne (m : List (String × Nat)) (k k2 : String) (v : Nat)
    (hne : k2 ≠ k) : lookupKey (setKey m k v) k2 = lookupKey m k2 := by
  induction m with
  | nil => simp [setKey, lookupKey, Ne.symm hne]
  | cons p rest ih =>
    obtain ⟨k0, v0⟩ := p
    by_cases hk : k0 = k
    · subst hk
      simp [setKey, lookupKey, Ne.symm hne]
    · simp [setKey, hk, lookupKey, ih]

theorem processTable_skip (m : List (String × Nat)) (t : Table)
    (hq : qualifyingTable t = false) : processTable m t = .ok m := by
  rw [qualifyingTable, Bool.and_eq_false_iff] at hq
  cases hid : t.hasId with
  | false =>
    rw [processTable, hid]
    simp
  | true =>
    have he : t.precedingText = headingText := by
      rcases hq with h | h
      · rw [hid] at h
        cases h
      · simpa using h
    rw [processTable, hid, if_neg (by simp), if_pos he]

theorem processTable_qualifying (m : List (String × Nat)) (t : Table) (n : Nat)
    (hid : t.hasId = true) (hne : t.precedingText ≠ headingText)
    (hcount : countTableRows t.rows = .ok n) :
    processTable m t = .ok (setKey m t.precedingText n) := by
  rw [processTable, hid, if_neg (by simp), if_neg hne, hcount]

theorem processTable_error (m : List (String × Nat)) (t : Table) (e : RowError)
    (hid : t.hasId = true) (hne : t.precedingText ≠ headingText)
    (hc : countTableRows t.rows = .error e) : processTable m t = .error e := by
  rw [processTable, hid, if_neg (by simp), if_neg hne, hc]

theorem readySrusFrom_append (ts1 ts2 : List Table) (m : List (String × Nat)) :
    readySrusFrom m (ts1 ++ ts2) =
      (readySrusFrom m ts1).bind (fun m2 => readySrusFrom m2 ts2) := by
  induction ts1 generalizing m with
  | nil => rfl
  | cons t rest ih =>
    rw [List.cons_append]
    simp only [readySrusFrom]
    cases hp : processTable m t with
    | error e => rfl
    | ok m2 => exact ih m2

theorem readySrusFrom_filter (ts : List Table) (m : List (String × Nat)) :
    readySrusFrom m ts = readySrusFrom m (ts.filter qualifyingTable) := by
  induction ts generalizing m with
  | nil => rfl
  | cons t rest ih =>
    by_cases hq : qualifyingTable t = true
    · rw [List.filter_cons, if_pos hq]
      simp only [readySrusFrom]
      cases hp : processTable m t with
      | error e => rfl
      | ok m2 => exact ih m2
    · rw [List.filter_cons, if_neg hq]
      simp only [readySrusFrom]
      rw [processTable_skip m t (by simpa using hq)]
      exact ih m

theorem processTable_heading_none (m : List (String × Nat)) (t : Table)
    (m1 : List (String × Nat)) (h : processTable m t = .ok m1)
    (h0 : lookupKey m headingText = none) :
    lookupKey m1 headingText = none := by
  rw [processTable] at h
  split at h
  · cases h
    exact h0
  · split at h
    · cases h
      exact h0
    · rename_i hne
      cases hc : countTableRows t.rows with
      | error e =>
        rw [hc] at h
        cases h
      | ok n =>
        rw [hc] at h
        cases h
        rw [lookupKey_setKey_ne m t.precedingText headingText n
          (fun he => hne he.symm)]
        exact h0

theorem readySrusFrom_heading_none (ts : List Table) (m m2 : List (String × Nat))
    (h0 : lookupKey m headingText = none)
    (h : readySrusFrom m ts = .ok m2) :
    lookupKey m2 headingText = none := by
  induction ts generalizing m with
  | nil =>
    rw [readySrusFrom] at h
    cases h
    exact h0
  | cons t rest ih =>
    rw [readySrusFrom] at h
    cases hp : processTable m t with
    | error e =>
      rw [hp] at h
      cases h
    | ok m1 =>
      rw [hp] at h
      exact ih m1 (processTable_heading_none m t m1 hp h0) h

theorem countTableRows_all_skipped (rows : List (List Cell))
    (h : ∀ r ∈ rows, processRow r = .ok false) :
    countTableRows rows = .ok 0 := by
  induction rows with
  | nil => rfl
  | cons r rest ih =>
    rw [countTableRows, h r (List.mem_cons_self r rest),
      ih (fun x hx => h x (List.mem_cons_of_mem r hx))]
    rfl

/-- C4: a table without an `id` attribute, and a table whose immediately
preceding text is the literal heading "Upload queue status at a glance:",
never contribute to the result (parsing a table list equals parsing its
qualifying sublist, and the heading string is never a key of a successful
result); a qualifying table contributes its row count under the key given
by its immediately preceding text. -/
theorem readySrus_table_selection :
    (∀ tables : List Table,
      readySrusOfTables tables =
        readySrusOfTables (tables.filter qualifyingTable))
    ∧ (∀ (tables : List Table) (m : List (String × Nat)),
        readySrusOfTables tables = .ok m → lookupKey m headingText = none)
    ∧ (∀ (t : Table) (n : Nat), t.hasId = true →
        t.precedingText ≠ headingText → countTableRows t.rows = .ok n →
        readySrusOfTables [t] = .ok [(t.precedingText, n)]) := by
  refine ⟨?_, ?_, ?_⟩
  · intro tables
    exact readySrusFrom_filter tables []
  · intro tables m h
    exact readySrusFrom_heading_none tables [] m rfl h
  · intro t n hid hne hcount
    rw [readySrusOfTables, readySrusFrom,
      processTable_qualifying [] t n hid hne hcount]
    rfl

/-- Witness for C4 at the spec's example: a qualifying table preceded by
"Xenial" with one counted row maps "Xenial" to 1. -/
theorem readySrus_table_selection_witness :
    ((Table.mk true "Xenial" [mkPlainRow 8]).hasId = true
      ∧ (Table.mk true "Xenial" [mkPlainRow 8]).precedingText ≠ headingText
      ∧ countTableRows [mkPlainRow 8] = .ok 1)
    ∧ readySrusOfTables [⟨true, "Xenial", [mkPlainRow 8]⟩] = .ok [("Xenial", 1)] :=
  ⟨⟨rfl, by decide, by rfl⟩,
    readySrus_table_selection.2.2 ⟨true, "Xenial", [mkPlainRow 8]⟩ 1 rfl
      (by decide) (by rfl)⟩

/-- C10: a qualifying table's release entry is initialised to 0 before its
rows are scanned, so the release name is a key of the result even when no
row qualifies; and when two qualifying tables share a release name, the
later table's count overwrites the earlier one's. -/
theorem readySrus_init_and_overwrite :
    (∀ (ts : List Table) (t : Table) (m : List (String × Nat)),
      t.hasId = true → t.precedingText ≠ headingText →
      (∀ r ∈ t.rows, processRow r = .ok false) →
      readySrusOfTables (ts ++ [t]) = .ok m →
      lookupKey m t.precedingText = some 0)
    ∧ (∀ (ts : List Table) (t1 t2 : Table) (m : List (String × Nat)) (n2 : Nat),
      t1.hasId = true → t1.precedingText ≠ headingText →
      t2.hasId = true → t2.precedingText = t1.precedingText →
      countTableRows t2.rows = .ok n2 →
      readySrusOfTables (ts ++ [t1, t2]) = .ok m →
      lookupKey m t1.precedingText = some n2) := by
  constructor
  · intro ts t m hid hne hrows h
    rw [readySrusOfTables, readySrusFrom_append] at h
    cases h0 : readySrusFrom [] ts with
    | error e =>
      rw [h0] at h
      cases h
    | ok m0 =>
      rw [h0] at h
      have h1 : readySrusFrom m0 [t] = .ok m := h
      rw [readySrusFrom,
        processTable_qualifying m0 t 0 hid hne
          (countTableRows_all_skipped t.rows hrows)] at h1
      have h2 : (Except.ok (setKey m0 t.precedingText 0) :
          Except RowError (List (String × Nat))) = .ok m := h1
      cases h2
      exact lookupKey_setKey_self m0 t.precedingText 0
  · intro ts t1 t2 m n2 hid1 hne1 hid2 hpre hcount2 h
    rw [readySrusOfTables, readySrusFrom_append] at h
    cases h0 : readySrusFrom [] ts with
    | error e =>
      rw [h0] at h
      cases h
    | ok m0 =>
      rw [h0] at h
      have h1 : readySrusFrom m0 [t1, t2] = .ok m := h
      rw [readySrusFrom] at h1
      cases hc1 : countTableRows t1.rows with
      | error e =>
        rw [processTable_error m0 t1 e hid1 hne1 hc1] at h1
        cases h1
      | ok n1 =>
        rw [processTable_qualifying m0 t1 n1 hid1 hne1 hc1] at h1
        have h2 : readySrusFrom (setKey m0 t1.precedingText n1) [t2] = .ok m := h1
        rw [readySrusFrom,
          processTable_qualifying (setKey m0 t1.precedingText n1) t2 n2 hid2
            (hpre ▸ hne1) hcount2] at h2
        have h3 : (Except.ok (setKey (setKey m0 t1.precedingText n1)
            t2.precedingText n2) : Except RowError (List (String × Nat))) = .ok m := h2
        cases h3
        rw [hpre, lookupKey_setKey_self]

/-- Witness for C10: a first "Xenial" table with one counted row is
overwritten by a second, row-less "Xenial" table, leaving count 0. -/
theorem readySrus_init_and_overwrite_witness :
    ((Table.mk true "Xenial" []).hasId = true
      ∧ (Table.mk true "Xenial" []).precedingText ≠ headingText
      ∧ countTableRows ([] : List (List Cell)) = .ok 0
      ∧ readySrusOfTables [⟨true, "Xenial", [mkPlainRow 9]⟩, ⟨true, "Xenial", []⟩]
          = .ok [("Xenial", 0)])
    ∧ lookupKey [("Xenial", 0)] "Xenial" = some 0 :=
  ⟨⟨rfl, by decide, by rfl, by rfl⟩,
    readySrus_init_and_overwrite.2 [] ⟨true, "Xenial", [mkPlainRow 9]⟩
      ⟨true, "Xenial", []⟩ [("Xenial", 0)] 0 rfl (by decide) rfl rfl (by rfl)
      (by rfl)⟩

/-! ## Malformed rows raise rather than being skipped -/

/-- C2 counterexample: rows that do not match the expected shape are not
silently skipped — a non-failing row with fewer than six cells raises
`IndexError` at `cols[5]`, a non-integer sixth cell raises `ValueError` at
`int(cols[5].string)`, a bug link without a `class` attribute raises
`KeyError` at `bug['class']`, and such an error aborts the whole parse. -/
theorem processRow_malformed_raises :
    processRow [⟨"", none, []⟩] = .error .indexError
    ∧ processRow [⟨"", none, []⟩, ⟨"", none, []⟩, ⟨"", none, []⟩,
        ⟨"", none, []⟩, ⟨"", none, []⟩, ⟨"", none, []⟩] = .error .valueError
    ∧ processRow (mkBugRow [⟨none⟩] 8) = .error .keyError
    ∧ readySrusOfTables [⟨true, "Xenial", [[⟨"", none, []⟩]]⟩] =
        .error .indexError :=
  ⟨by rfl, by rfl, by rfl, by rfl⟩

/-- C2 amended: a row with zero data cells, or whose first cell carries a
failure marker, is silently skipped; but a non-failing row with fewer than
six data cells raises `IndexError`, a sixth cell without an integer value
raises `ValueError`, and a bug link without a `class` attribute (reached
before any unverified link) raises `KeyError`. -/
theorem processRow_skip_and_raise :
    (∀ cells : List Cell, cells.length = 0 → processRow cells = .ok false)
    ∧ (∀ (c0 : Cell) (rest : List Cell), isFailureText c0.text = true →
        processRow (c0 :: rest) = .ok false)
    ∧ (∀ (c0 : Cell) (rest : List Cell), isFailureText c0.text = false →
        (c0 :: rest).length < 6 →
        processRow (c0 :: rest) = .error .indexError)
    ∧ (∀ (cells : List Cell) (c5 : Cell),
        cells.length ≠ 0 →
        isFailureText ((cells.headD ⟨"", none, []⟩).text) = false →
        cells[5]? = some c5 → c5.intVal = none →
        processRow cells = .error .valueError)
    ∧ (∀ (c0 c1 c2 c3 c4 c5 : Cell) (rest : List Cell) (n : Int)
        (bs : List BugLink),
        isFailureText c0.text = false → c5.intVal = some n → 7 ≤ n →
        c4.links = BugLink.mk none :: bs →
        processRow (c0 :: c1 :: c2 :: c3 :: c4 :: c5 :: rest) =
          .error .keyError) := by
  refine ⟨?_, ?_, ?_, ?_, ?_⟩
  · intro cells h
    rw [processRow, if_pos h]
  · intro c0 rest hfail
    simp [processRow, hfail]
  · intro c0 rest hfail hlen
    have h5 : (c0 :: rest)[5]? = none := List.getElem?_eq_none (by omega)
    simp [processRow, hfail, h5]
  · intro cells c5 hlen hfail h5 hiv
    rw [processRow]
    simp only [if_neg hlen, hfail, Bool.false_eq_true, if_false, h5, hiv]
  · intro c0 c1 c2 c3 c4 c5 rest n bs h0 h5 hn hlinks
    have hlen : (c0 :: c1 :: c2 :: c3 :: c4 :: c5 :: rest).length ≠ 0 := by simp
    rw [processRow]
    simp only [if_neg hlen, List.headD_cons, h0, Bool.false_eq_true, if_false,
      List.getElem?_cons_succ, List.getElem?_cons_zero, h5, if_pos hn, hlinks]
    rfl

/-- Witness for the amended C2 at a one-cell, non-failing row. -/
theorem processRow_skip_and_raise_witness :
    (isFailureText (Cell.mk "" none []).text = false
      ∧ ([⟨"", none, []⟩] : List Cell).length < 6)
    ∧ processRow [⟨"", none, []⟩] = .error .indexError :=
  ⟨⟨by rfl, by decide⟩,
    processRow_skip_and_raise.2.2.1 ⟨"", none, []⟩ [] (by rfl) (by decide)⟩

/-! ## Series enumeration -/

/-- C8: both the queue-count and the age-statistics outputs are keyed by
exactly the active series minus the current one (assuming the current
series is among the active ones — `list.remove` raises otherwise — and the
active series are distinct): a name is a key of either output precisely
when it names an active, non-current series, and both outputs share the
same key sequence. -/
theorem seriesEnumeration_excludes_current (d : Distro)
    (getUploads : Series → List Int) (getUploadAges : Series → List Int)
    (hcur : d.currentSeries ∈ d.series.filter (fun s => s.active))
    (hnd : (d.series.filter (fun s => s.active)).Nodup) :
    ∃ qs ages, sruQueueCount d getUploads = some qs
      ∧ sruAges d getUploadAges = some ages
      ∧ qs.map Prod.fst = ages.map Prod.fst
      ∧ (∀ nm : String, nm ∈ qs.map Prod.fst ↔
          ∃ s : Series, s ∈ d.series ∧ s.active = true
            ∧ s ≠ d.currentSeries ∧ s.name = nm) := by
  have hss : stableSeries d =
      some ((d.series.filter (fun s => s.active)).erase d.currentSeries) := by
    rw [stableSeries, if_pos hcur]
  refine ⟨((d.series.filter (fun s => s.active)).erase d.currentSeries).map
      (fun s => (s.name, (getUploads s).length)),
    ((d.series.filter (fun s => s.active)).erase d.currentSeries).map
      (fun s => (s.name, sruAgeStats (getUploadAges s))),
    by rw [sruQueueCount, hss]; rfl,
    by rw [sruAges, hss]; rfl,
    by rw [List.map_map, List.map_map]; rfl,
    ?_⟩
  intro nm
  rw [List.map_map]
  constructor
  · intro h
    rcases List.mem_map.mp h with ⟨s, hs, hname⟩
    rcases (hnd.mem_erase_iff).mp hs with ⟨hne, hmem⟩
    rcases List.mem_filter.mp hmem with ⟨hmem2, hact⟩
    exact ⟨s, hmem2, by simpa using hact, hne, hname⟩
  · rintro ⟨s, hmem, hact, hne, rfl⟩
    exact List.mem_map.mpr ⟨s,
      (hnd.mem_erase_iff).mpr ⟨hne, List.mem_filter.mpr ⟨hmem, by simpa using hact⟩⟩,
      rfl⟩

/-- Witness for C8 at active series alpha, beta, gamma with gamma current. -/
theorem seriesEnumeration_excludes_current_witness :
    ((⟨"gamma", true⟩ : Series) ∈
        ([⟨"alpha", true⟩, ⟨"beta", true⟩, ⟨"gamma", true⟩] : List Series).filter
          (fun s => s.active)
      ∧ (([⟨"alpha", true⟩, ⟨"beta", true⟩, ⟨"gamma", true⟩] : List Series).filter
          (fun s => s.active)).Nodup)
    ∧ ∃ qs ages,
        sruQueueCount ⟨[⟨"alpha", true⟩, ⟨"beta", true⟩, ⟨"gamma", true⟩],
          ⟨"gamma", true⟩⟩ (fun _ => []) = some qs
        ∧ sruAges ⟨[⟨"alpha", true⟩, ⟨"beta", true⟩, ⟨"gamma", true⟩],
            ⟨"gamma", true⟩⟩ (fun _ => []) = some ages
        ∧ qs.map Prod.fst = ages.map Prod.fst
        ∧ (∀ nm : String, nm ∈ qs.map Prod.fst ↔
            ∃ s : Series, s ∈ [⟨"alpha", true⟩, ⟨"beta", true⟩, ⟨"gamma", true⟩]
              ∧ s.active = true ∧ s ≠ (⟨"gamma", true⟩ : Series) ∧ s.name = nm) :=
  ⟨⟨by decide, by decide⟩,
    seriesEnumeration_excludes_current
      ⟨[⟨"alpha", true⟩, ⟨"beta", true⟩, ⟨"gamma", true⟩], ⟨"gamma", true⟩⟩
      (fun _ => []) (fun _ => []) (by decide) (by decide)⟩

/-! ## `collect`: dry-run and push behaviour -/

/-- C9: in dry-run mode `collect` performs no gateway push and produces the
console report; in normal mode it produces the same console report followed
by "Pushing data..." and invokes the push exactly once, batching the five
gauge families under the fixed job name "foundations-sru". -/
theorem collect_dryrun_and_push (q rs : List (String × Nat))
    (a : List (String × AgeStats)) :
    ∃ out : CollectOut,
      collectRun q (some rs) a true = .ok out
      ∧ out.pushes = []
      ∧ out.console ≠ []
      ∧ ∃ out2 : CollectOut,
          collectRun q (some rs) a false = .ok out2
          ∧ out2.console = out.console ++ ["Pushing data..."]
          ∧ ∃ p : GatewayPush, out2.pushes = [p]
            ∧ p.job = "foundations-sru"
            ∧ p.families.length = 5
            ∧ p.families.map (fun f => f.name) =
              ["distro_sru_unapproved_proposed_count",
               "distro_sru_unapproved_proposed_oldest_age",
               "distro_sru_unapproved_proposed_ten_day_backlog_age",
               "distro_sru_unapproved_proposed_ten_day_backlog_count",
               "distro_sru_verified_and_ready_count"] := by
  refine ⟨_, rfl, rfl, List.cons_ne_nil _ _, _, rfl, rfl, _, rfl, rfl, rfl, rfl⟩

/-- C1 (code-bug record): on the parse-failure path the code logs the
error and returns `None` (not an empty map), and `collect` then raises
`AttributeError` iterating `ready_srus.items()`: the queue and age metrics
are computed but the run aborts before anything is printed for ready
counts or pushed, in both modes. -/
theorem collect_parse_failure_aborts (q : List (String × Nat))
    (a : List (String × AgeStats)) (d : Bool) :
    sruVerifiedAndReadyCount .unparsable = .ok ⟨true, none⟩
    ∧ collectRun q none a d = .error .attributeError :=
  ⟨rfl, rfl⟩

end FoundationsSru
